import Mathlib

/-!
# URL shortener (`src/index.js`): embedding and verified properties

The service keeps two module-level variables, `urlDatabase` (an array of
`{ original_url, short_url }` objects) and `idCounter`, and has two handlers
that touch them: `POST /api/shorturl` and `GET /api/shorturl/:short`.

Modelling conventions.

* A JavaScript value that reaches a handler is either `undefined` (the body
  field or the parameter is absent) or a string.  Strings are sequences of
  Unicode characters, and `===` on them is equality of the sequences.  Body
  fields that are neither (numbers, arrays, objects of a JSON body) are not
  modelled; the properties proved are about string candidates.
* JavaScript numbers are modelled by `Int`, and `NaN` by `none`.  All numbers
  that occur (`idCounter`, `short_url`, the result of `parseInt`) are integers;
  IEEE doubles represent integers exactly below `2 ^ 53`, which is far beyond
  the number of elements a JavaScript array can hold.  The length limit of
  arrays itself is not modelled: `urlDatabase` is an unbounded list.
* `new URL(input)` and `parseInt(string)` belong to the platform.  `parseInt`
  is transcribed from ECMAScript (radix argument absent).  Of the WHATWG URL
  parser the part that finds the scheme is transcribed; what the parser does
  with the text after the scheme's colon is the parameter `rest` (whether that
  text is accepted for that scheme).
* `res.json(...)` and `res.redirect(...)` are recorded as the response value
  with the arguments the handler passes.
-/

namespace UrlShortener

/-! ## Values -/

/-- A JavaScript value as received by a handler. -/
inductive Value where
  | undefined
  | str (s : String)
  deriving DecidableEq

/-- The string conversion `ToString` of ECMAScript. -/
def Value.toStr : Value → String
  | .undefined => "undefined"
  | .str s => s

/-! ## `new URL(input)`: the scheme part of the WHATWG parser -/

/-- C0 control or space: U+0000 to U+0020. -/
def isC0ControlOrSpace (c : Char) : Bool := c.toNat ≤ 0x20

/-- ASCII tab or newline: U+0009, U+000A, U+000D. -/
def isAsciiTabOrNewline (c : Char) : Bool :=
  c.toNat == 0x09 || c.toNat == 0x0A || c.toNat == 0x0D

/-- Steps 1 to 3 of the basic URL parser: strip leading and trailing C0 control
or space, then remove every ASCII tab or newline. -/
def preprocess (input : List Char) : List Char :=
  (((input.dropWhile isC0ControlOrSpace).reverse.dropWhile isC0ControlOrSpace).reverse).filter
    (fun c => !isAsciiTabOrNewline c)

/-- The scheme state: characters of the scheme are collected lower-cased in
`buffer` up to the colon.  Returns the scheme and the text after the colon, or
`none` when the parser falls into the no-scheme state (which fails without a
base URL). -/
def schemeState (buffer : List Char) : List Char → Option (List Char × List Char)
  | [] => none
  | c :: cs =>
    if c.isAlphanum || c == '+' || c == '-' || c == '.' then
      schemeState (buffer ++ [c.toLower]) cs
    else if c == ':' then some (buffer, cs)
    else none

/-- The scheme start state: the first character must be an ASCII letter. -/
def schemeStartState : List Char → Option (List Char × List Char)
  | [] => none
  | c :: cs => if c.isAlpha then schemeState [c.toLower] cs else none

/-- The part of a parsed URL record the service reads. -/
structure URL where
  protocol : String
  deriving DecidableEq

/-- The constructor `new URL(input)` without a base; `none` stands for the
thrown `TypeError`.  `rest scheme remaining` tells whether the parser accepts
the text after the colon for that scheme. -/
def URL.new (rest : String → List Char → Bool) (input : Value) : Option URL :=
  match schemeStartState (preprocess input.toStr.data) with
  | none => none
  | some (scheme, remaining) =>
    if rest (String.mk scheme) remaining then some { protocol := String.mk (scheme ++ [':']) }
    else none

/-- The function `isValidHttpUrl` of `src/index.js`. -/
def isValidHttpUrl (rest : String → List Char → Bool) (userInput : Value) : Bool :=
  match URL.new rest userInput with
  | none => false
  | some url => url.protocol == "http:" || url.protocol == "https:"

/-! ## `parseInt(string)` with no radix -/

/-- White space and line terminators skipped by `parseInt`. -/
def isStrWhiteSpaceChar (c : Char) : Bool :=
  let n := c.toNat
  n == 0x09 || n == 0x0A || n == 0x0B || n == 0x0C || n == 0x0D || n == 0x20 || n == 0xA0 ||
  n == 0x1680 || (0x2000 ≤ n && n ≤ 0x200A) || n == 0x2028 || n == 0x2029 || n == 0x202F ||
  n == 0x205F || n == 0x3000 || n == 0xFEFF

/-- The value of a character as a digit in the given radix (10 or 16). -/
def digitValue (radix : Nat) (c : Char) : Option Nat :=
  let n := c.toNat
  if 48 ≤ n && n ≤ 57 then some (n - 48)
  else if radix == 16 && 97 ≤ n && n ≤ 102 then some (n - 87)
  else if radix == 16 && 65 ≤ n && n ≤ 70 then some (n - 55)
  else none

/-- The longest prefix of digits of the radix. -/
def takeDigits (radix : Nat) : List Char → List Nat
  | [] => []
  | c :: cs =>
    match digitValue radix c with
    | some d => d :: takeDigits radix cs
    | none => []

/-- The integer denoted by a digit sequence, most significant digit first. -/
def digitsValue (radix : Nat) (ds : List Nat) : Nat :=
  ds.foldl (fun acc d => acc * radix + d) 0

/-- The function `parseInt` on the characters of its argument: skip leading
white space, read a sign, strip a `0x` or `0X` prefix (radix 16, else 10), and
read the longest prefix of digits; `none` (`NaN`) when there is no digit. -/
def parseIntChars (input : List Char) : Option Int :=
  let s := input.dropWhile isStrWhiteSpaceChar
  let sign : Int := if s.head? = some '-' then -1 else 1
  let s := if s.head? = some '+' ∨ s.head? = some '-' then s.tail else s
  let hex : Bool := s.take 2 = ['0', 'x'] ∨ s.take 2 = ['0', 'X']
  let radix := if hex then 16 else 10
  let s := if hex then s.drop 2 else s
  match takeDigits radix s with
  | [] => none
  | d :: ds => some (sign * (digitsValue radix (d :: ds) : Int))

/-- The builtin `parseInt(value)`: the argument is converted to a string first;
`none` is `NaN`. -/
def parseInt (v : Value) : Option Int := parseIntChars v.toStr.data

/-! ## The store and the two handlers -/

/-- An element of `urlDatabase`. -/
structure Entry where
  original_url : Value
  short_url : Int
  deriving DecidableEq

/-- The module-level variables `urlDatabase` and `idCounter`. -/
structure Store where
  urlDatabase : List Entry
  idCounter : Int
  deriving DecidableEq

/-- The state at process start: `urlDatabase = []`, `idCounter = 1`. -/
def Store.init : Store := { urlDatabase := [], idCounter := 1 }

/-- What a handler sends. -/
inductive Response where
  /-- The body `{ error: "invalid url" }`. -/
  | invalidUrl
  /-- The body `{ original_url, short_url }`. -/
  | shortened (original_url : Value) (short_url : Int)
  /-- A redirect, `res.redirect(url)`. -/
  | redirect (url : Value)
  deriving DecidableEq

/-- The handler of `POST /api/shorturl`; `originalUrl` is `req.body.url`. -/
def postShorturl (rest : String → List Char → Bool) (s : Store) (originalUrl : Value) :
    Store × Response :=
  if !isValidHttpUrl rest originalUrl then (s, .invalidUrl)
  else
    match s.urlDatabase.find? (fun entry => entry.original_url == originalUrl) with
    | some existingEntry => (s, .shortened existingEntry.original_url existingEntry.short_url)
    | none =>
      let newEntry : Entry := { original_url := originalUrl, short_url := s.idCounter }
      ({ urlDatabase := s.urlDatabase ++ [newEntry], idCounter := s.idCounter + 1 },
        .shortened newEntry.original_url newEntry.short_url)

/-- The strict comparison `item.short_url === shortParam`, false for `NaN`. -/
def strictEqNumber (x : Int) (y : Option Int) : Bool :=
  match y with
  | none => false
  | some n => x == n

/-- The handler of `GET /api/shorturl/:short`; `short` is `req.params.short`. -/
def getShorturl (s : Store) (short : Value) : Store × Response :=
  let shortParam := parseInt short
  match s.urlDatabase.find? (fun item => strictEqNumber item.short_url shortParam) with
  | none => (s, .invalidUrl)
  | some entry => (s, .redirect entry.original_url)

/-! ## Request sequences -/

/-- A request to one of the two handlers. -/
inductive Request where
  | post (url : Value)
  | get (short : Value)
  deriving DecidableEq

/-- One request served. -/
def step (rest : String → List Char → Bool) (s : Store) : Request → Store × Response
  | .post url => postShorturl rest s url
  | .get short => getShorturl s short

/-- A sequence of requests served in order, with the responses sent. -/
def run (rest : String → List Char → Bool) (s : Store) : List Request → Store × List Response
  | [] => (s, [])
  | r :: rs =>
    let (s1, resp) := step rest s r
    let (s2, resps) := run rest s1 rs
    (s2, resp :: resps)

/-- A permissive stand-in for the remainder of the URL parser, used for concrete
evaluations: text after the scheme is accepted when it is not empty. -/
def restNonEmpty : String → List Char → Bool := fun _ remaining => !remaining.isEmpty

/-- The aliases of a store are 1, 2, ... in creation order and the counter is
the next one. -/
def AliasesSequential (s : Store) : Prop :=
  (∀ k (h : k < s.urlDatabase.length), (s.urlDatabase.get ⟨k, h⟩).short_url = (k : Int) + 1) ∧
    s.idCounter = (s.urlDatabase.length : Int) + 1

/-- Every stored URL passes validation and no URL is stored twice. -/
def UrlsDistinctValid (rest : String → List Char → Bool) (s : Store) : Prop :=
  (s.urlDatabase.map (fun e => e.original_url)).Nodup ∧
    ∀ e ∈ s.urlDatabase, isValidHttpUrl rest e.original_url = true

/-! ## The handlers case by case -/

theorem postShorturl_invalid (rest : String → List Char → Bool) (s : Store) (u : Value)
    (h : isValidHttpUrl rest u = false) : postShorturl rest s u = (s, .invalidUrl) := by
  simp [postShorturl, h]

theorem postShorturl_found (rest : String → List Char → Bool) (s : Store) (u : Value) (e : Entry)
    (h : isValidHttpUrl rest u = true)
    (hf : s.urlDatabase.find? (fun entry => entry.original_url == u) = some e) :
    postShorturl rest s u = (s, .shortened u e.short_url) := by
  have hu : e.original_url = u := by
    have := List.find?_some hf
    simpa using this
  simp [postShorturl, h, hf, hu]

theorem postShorturl_new (rest : String → List Char → Bool) (s : Store) (u : Value)
    (h : isValidHttpUrl rest u = true)
    (hf : s.urlDatabase.find? (fun entry => entry.original_url == u) = none) :
    postShorturl rest s u =
      ({ urlDatabase := s.urlDatabase ++ [{ original_url := u, short_url := s.idCounter }],
         idCounter := s.idCounter + 1 }, .shortened u s.idCounter) := by
  simp [postShorturl, h, hf]

theorem find_url_eq_none_iff (db : List Entry) (u : Value) :
    db.find? (fun entry => entry.original_url == u) = none ↔ ∀ e ∈ db, e.original_url ≠ u := by
  simp [List.find?_eq_none]

theorem getShorturl_store (s : Store) (t : Value) : (getShorturl s t).1 = s := by
  simp only [getShorturl]
  cases s.urlDatabase.find? (fun item => strictEqNumber item.short_url (parseInt t)) <;> rfl

theorem getShorturl_nan (s : Store) (t : Value) (h : parseInt t = none) :
    getShorturl s t = (s, .invalidUrl) := by
  have hf : s.urlDatabase.find? (fun item => strictEqNumber item.short_url none) = none := by
    simp [List.find?_eq_none, strictEqNumber]
  simp [getShorturl, h, hf]

/-- A valid submission either returns the first stored entry with that URL and
leaves the store alone, or appends an entry carrying the counter. -/
theorem postShorturl_cases (rest : String → List Char → Bool) (s : Store) (u : Value)
    (h : isValidHttpUrl rest u = true) :
    (∃ e, e ∈ s.urlDatabase ∧ e.original_url = u ∧
        s.urlDatabase.find? (fun entry => entry.original_url == u) = some e ∧
        postShorturl rest s u = (s, .shortened u e.short_url)) ∨
    ((∀ e ∈ s.urlDatabase, e.original_url ≠ u) ∧
        postShorturl rest s u =
          ({ urlDatabase := s.urlDatabase ++ [{ original_url := u, short_url := s.idCounter }],
             idCounter := s.idCounter + 1 }, .shortened u s.idCounter)) := by
  cases hf : s.urlDatabase.find? (fun entry => entry.original_url == u) with
  | none =>
    right
    exact ⟨(find_url_eq_none_iff _ _).1 hf, postShorturl_new rest s u h hf⟩
  | some e =>
    left
    refine ⟨e, List.mem_of_find?_eq_some hf, ?_, rfl, postShorturl_found rest s u e h hf⟩
    have := List.find?_some hf
    simpa using this

/-- Serving a request only ever appends to `urlDatabase`. -/
theorem step_append (rest : String → List Char → Bool) (s : Store) (r : Request) :
    ∃ l, (step rest s r).1.urlDatabase = s.urlDatabase ++ l := by
  cases r with
  | get t => exact ⟨[], by simp [step, getShorturl_store]⟩
  | post u =>
    cases h : isValidHttpUrl rest u with
    | false => exact ⟨[], by simp [step, postShorturl_invalid rest s u h]⟩
    | true =>
      rcases postShorturl_cases rest s u h with ⟨e, _, _, _, hp⟩ | ⟨_, hp⟩
      · exact ⟨[], by simp [step, hp]⟩
      · exact ⟨[{ original_url := u, short_url := s.idCounter }], by simp [step, hp]⟩

theorem run_nil (rest : String → List Char → Bool) (s : Store) : run rest s [] = (s, []) := rfl

theorem run_cons (rest : String → List Char → Bool) (s : Store) (r : Request)
    (rs : List Request) :
    run rest s (r :: rs) =
      ((run rest (step rest s r).1 rs).1, (step rest s r).2 :: (run rest (step rest s r).1 rs).2) :=
  rfl

/-- A property of stores kept by every request holds after any sequence. -/
theorem run_preserves (rest : String → List Char → Bool) (P : Store → Prop)
    (hstep : ∀ s r, P s → P (step rest s r).1) :
    ∀ (rs : List Request) (s : Store), P s → P (run rest s rs).1 := by
  intro rs
  induction rs with
  | nil => intro s hs; simpa [run_nil] using hs
  | cons r rs ih =>
    intro s hs
    rw [run_cons]
    exact ih _ (hstep s r hs)

/-- A sequence of requests only ever appends to `urlDatabase`. -/
theorem run_append (rest : String → List Char → Bool) :
    ∀ (rs : List Request) (s : Store), ∃ l, (run rest s rs).1.urlDatabase = s.urlDatabase ++ l := by
  intro rs
  induction rs with
  | nil => intro s; exact ⟨[], by simp [run_nil]⟩
  | cons r rs ih =>
    intro s
    obtain ⟨l1, h1⟩ := step_append rest s r
    obtain ⟨l2, h2⟩ := ih (step rest s r).1
    exact ⟨l1 ++ l2, by rw [run_cons]; simp [h2, h1]⟩

theorem run_length (rest : String → List Char → Bool) :
    ∀ (rs : List Request) (s : Store), (run rest s rs).2.length = rs.length := by
  intro rs
  induction rs with
  | nil => intro s; rfl
  | cons r rs ih => intro s; rw [run_cons]; simp [ih]

theorem aliasesSequential_init : AliasesSequential Store.init := by
  constructor
  · intro k h; simp [Store.init] at h
  · simp [Store.init]

theorem aliasesSequential_step (rest : String → List Char → Bool) (s : Store) (r : Request)
    (hs : AliasesSequential s) : AliasesSequential (step rest s r).1 := by
  cases r with
  | get t => simpa [step, getShorturl_store] using hs
  | post u =>
    cases h : isValidHttpUrl rest u with
    | false => simpa [step, postShorturl_invalid rest s u h] using hs
    | true =>
      rcases postShorturl_cases rest s u h with ⟨e, _, _, _, hp⟩ | ⟨_, hp⟩
      · simpa [step, hp] using hs
      · simp only [step, hp]
        obtain ⟨h1, h2⟩ := hs
        constructor
        · intro k hk
          simp only [List.length_append, List.length_singleton] at hk
          by_cases hlt : k < s.urlDatabase.length
          · simp only [List.get_eq_getElem]
            rw [List.getElem_append_left hlt]
            simpa using h1 k hlt
          · have hk2 : k = s.urlDatabase.length := by omega
            subst hk2
            simp [h2]
        · simp [h2]

theorem urlsDistinctValid_init (rest : String → List Char → Bool) :
    UrlsDistinctValid rest Store.init := by
  simp [UrlsDistinctValid, Store.init]

theorem urlsDistinctValid_step (rest : String → List Char → Bool) (s : Store) (r : Request)
    (hs : UrlsDistinctValid rest s) : UrlsDistinctValid rest (step rest s r).1 := by
  cases r with
  | get t => simpa [step, getShorturl_store] using hs
  | post u =>
    cases h : isValidHttpUrl rest u with
    | false => simpa [step, postShorturl_invalid rest s u h] using hs
    | true =>
      rcases postShorturl_cases rest s u h with ⟨e, _, _, _, hp⟩ | ⟨hne, hp⟩
      · simpa [step, hp] using hs
      · simp only [step, hp]
        obtain ⟨h1, h2⟩ := hs
        constructor
        · simp only [List.map_append, List.map_cons, List.map_nil]
          rw [List.nodup_append]
          refine ⟨h1, List.nodup_singleton _, ?_⟩
          intro x hx hx2
          simp only [List.mem_singleton] at hx2
          subst hx2
          obtain ⟨e, he, heq⟩ := List.mem_map.1 hx
          exact hne e he heq
        · intro e he
          rcases List.mem_append.1 he with he | he
          · exact h2 e he
          · simp only [List.mem_singleton] at he
            subst he
            exact h

theorem aliasesSequential_run (rest : String → List Char → Bool) (rs : List Request) :
    AliasesSequential (run rest Store.init rs).1 :=
  run_preserves rest AliasesSequential (aliasesSequential_step rest) rs _ aliasesSequential_init

theorem urlsDistinctValid_run (rest : String → List Char → Bool) (rs : List Request) :
    UrlsDistinctValid rest (run rest Store.init rs).1 :=
  run_preserves rest (UrlsDistinctValid rest) (urlsDistinctValid_step rest) rs _
    (urlsDistinctValid_init rest)

/-! ## Lookup by alias -/

theorem alias_injective (s : Store) (hs : AliasesSequential s) (e1 e2 : Entry)
    (h1 : e1 ∈ s.urlDatabase) (h2 : e2 ∈ s.urlDatabase) (h : e1.short_url = e2.short_url) :
    e1 = e2 := by
  obtain ⟨⟨i, hi⟩, rfl⟩ := List.mem_iff_get.1 h1
  obtain ⟨⟨j, hj⟩, rfl⟩ := List.mem_iff_get.1 h2
  rw [hs.1 i hi, hs.1 j hj] at h
  have : i = j := by omega
  subst this
  rfl

theorem find_alias_of_mem (s : Store) (hs : AliasesSequential s) (e : Entry)
    (he : e ∈ s.urlDatabase) :
    s.urlDatabase.find? (fun item => strictEqNumber item.short_url (some e.short_url)) = some e := by
  cases hf : s.urlDatabase.find? (fun item => strictEqNumber item.short_url (some e.short_url)) with
  | none =>
    have := List.find?_eq_none.1 hf e he
    simp [strictEqNumber] at this
  | some e2 =>
    have hm := List.mem_of_find?_eq_some hf
    have hp := List.find?_some hf
    simp only [strictEqNumber, beq_iff_eq] at hp
    rw [alias_injective s hs e2 e hm he hp]

theorem find_alias_some (db : List Entry) (a : Int) (e : Entry)
    (hf : db.find? (fun item => strictEqNumber item.short_url (some a)) = some e) :
    e ∈ db ∧ e.short_url = a := by
  refine ⟨List.mem_of_find?_eq_some hf, ?_⟩
  have hp := List.find?_some hf
  simpa [strictEqNumber] using hp

/-- In a store with sequential aliases a token that parses to `a` is redirected
to `u` exactly when the entry `(u, a)` is stored. -/
theorem getShorturl_redirect_iff (s : Store) (hs : AliasesSequential s) (t : Value) (a : Int)
    (ht : parseInt t = some a) (u : Value) :
    getShorturl s t = (s, .redirect u) ↔
      ({ original_url := u, short_url := a } : Entry) ∈ s.urlDatabase := by
  simp only [getShorturl, ht]
  constructor
  · intro h
    cases hf : s.urlDatabase.find? (fun item => strictEqNumber item.short_url (some a)) with
    | none => simp [hf] at h
    | some e =>
      simp only [hf, Prod.mk.injEq, Response.redirect.injEq, true_and] at h
      obtain ⟨hm, ha⟩ := find_alias_some _ _ _ hf
      have : e = { original_url := u, short_url := a } := by
        cases e; simp_all
      rwa [← this]
  · intro h
    have := find_alias_of_mem s hs _ h
    simp only at this
    simp [this]

/-- Without an entry of alias `a` a token that parses to `a` gets the error. -/
theorem getShorturl_invalid_of_absent (s : Store) (t : Value) (a : Int)
    (ht : parseInt t = some a) (h : ∀ e ∈ s.urlDatabase, e.short_url ≠ a) :
    getShorturl s t = (s, .invalidUrl) := by
  have hf : s.urlDatabase.find? (fun item => strictEqNumber item.short_url (some a)) = none := by
    simp only [List.find?_eq_none, strictEqNumber, beq_iff_eq, Bool.not_eq_true]
    intro e he
    simpa using h e he
  simp [getShorturl, ht, hf]

/-! ## Entries and the calls that made them -/

theorem step_mem_iff (rest : String → List Char → Bool) (s : Store) (r : Request) (u : Value)
    (a : Int) :
    ({ original_url := u, short_url := a } : Entry) ∈ (step rest s r).1.urlDatabase ↔
      ({ original_url := u, short_url := a } : Entry) ∈ s.urlDatabase ∨
        (r, (step rest s r).2) = (Request.post u, Response.shortened u a) := by
  cases r with
  | get t => simp [step, getShorturl_store]
  | post v =>
    cases h : isValidHttpUrl rest v with
    | false => simp [step, postShorturl_invalid rest s v h]
    | true =>
      rcases postShorturl_cases rest s v h with ⟨e, he, heu, _, hp⟩ | ⟨_, hp⟩
      · simp only [step, hp, Prod.mk.injEq, Request.post.injEq, Response.shortened.injEq]
        constructor
        · intro hm; exact Or.inl hm
        · rintro (hm | ⟨hv, _, ha⟩)
          · exact hm
          · have : e = { original_url := u, short_url := a } := by
              cases e; simp_all
            rwa [← this]
      · simp only [step, hp, Prod.mk.injEq, Request.post.injEq, Response.shortened.injEq,
          List.mem_append, List.mem_singleton, Entry.mk.injEq]
        constructor
        · rintro (hm | ⟨h1, h2⟩)
          · exact Or.inl hm
          · exact Or.inr ⟨h1.symm, h1.symm, h2.symm⟩
        · rintro (hm | ⟨h1, _, h2⟩)
          · exact Or.inl hm
          · exact Or.inr ⟨h1.symm, h2.symm⟩

/-- An entry is stored after a sequence of requests exactly when it was stored
before or one of the submissions in the sequence returned it. -/
theorem run_mem_iff (rest : String → List Char → Bool) (u : Value) (a : Int) :
    ∀ (rs : List Request) (s : Store),
      ({ original_url := u, short_url := a } : Entry) ∈ (run rest s rs).1.urlDatabase ↔
        ({ original_url := u, short_url := a } : Entry) ∈ s.urlDatabase ∨
          (Request.post u, Response.shortened u a) ∈ rs.zip (run rest s rs).2 := by
  intro rs
  induction rs with
  | nil => intro s; simp [run_nil]
  | cons r rs ih =>
    intro s
    rw [run_cons]
    simp only [List.zip_cons_cons, List.mem_cons]
    rw [ih (step rest s r).1, step_mem_iff rest s r u a]
    constructor
    · rintro ((h | h) | h)
      · exact Or.inl h
      · exact Or.inr (Or.inl h.symm)
      · exact Or.inr (Or.inr h)
    · rintro (h | h | h)
      · exact Or.inl (Or.inl h)
      · exact Or.inl (Or.inr h.symm)
      · exact Or.inr h

/-! ## Decimal numerals are read back by `parseInt` -/

theorem digitChar_facts (d : Nat) (h : d < 10) :
    digitValue 10 (Nat.digitChar d) = some d ∧ isStrWhiteSpaceChar (Nat.digitChar d) = false ∧
      Nat.digitChar d ≠ '-' ∧ Nat.digitChar d ≠ '+' ∧ Nat.digitChar d ≠ 'x' ∧
      Nat.digitChar d ≠ 'X' := by
  interval_cases d <;> decide

theorem digitsValue_snoc (ds : List Nat) (d : Nat) :
    digitsValue 10 (ds ++ [d]) = digitsValue 10 ds * 10 + d := by
  simp [digitsValue, List.foldl_append]

/-- The digits printed for `n` are decimal digits whose value is `n`. -/
theorem toDigitsCore_spec :
    ∀ (fuel n : Nat) (acc : List Char), n < fuel →
      ∃ ds : List Nat, ds ≠ [] ∧ (∀ d ∈ ds, d < 10) ∧
        Nat.toDigitsCore 10 fuel n acc = ds.map Nat.digitChar ++ acc ∧ digitsValue 10 ds = n := by
  intro fuel
  induction fuel with
  | zero => intro n acc h; omega
  | succ fuel ih =>
    intro n acc h
    by_cases h0 : n / 10 = 0
    · refine ⟨[n % 10], by simp, ?_, ?_, ?_⟩
      · intro d hd
        simp only [List.mem_singleton] at hd
        omega
      · simp [Nat.toDigitsCore, h0]
      · simp only [digitsValue, List.foldl_cons, List.foldl_nil]
        omega
    · have hlt : n / 10 < fuel := by omega
      obtain ⟨ds, hne, hd, heq, hv⟩ := ih (n / 10) (Nat.digitChar (n % 10) :: acc) hlt
      refine ⟨ds ++ [n % 10], by simp, ?_, ?_, ?_⟩
      · intro d hmem
        rcases List.mem_append.1 hmem with hm | hm
        · exact hd d hm
        · simp only [List.mem_singleton] at hm
          omega
      · simp [Nat.toDigitsCore, h0, heq]
      · rw [digitsValue_snoc, hv]
        omega

theorem takeDigits_digitChars (ds : List Nat) (hd : ∀ d ∈ ds, d < 10) :
    takeDigits 10 (ds.map Nat.digitChar) = ds := by
  induction ds with
  | nil => rfl
  | cons d t ih =>
    have hf := (digitChar_facts d (hd d (List.mem_cons_self _ _))).1
    simp only [List.map_cons, takeDigits, hf]
    rw [ih (fun x hx => hd x (List.mem_cons_of_mem _ hx))]

theorem take_two_digitChars (ds : List Nat) (hd : ∀ d ∈ ds, d < 10) :
    ¬ ((ds.map Nat.digitChar).take 2 = ['0', 'x'] ∨ (ds.map Nat.digitChar).take 2 = ['0', 'X']) := by
  match ds, hd with
  | [], _ => simp
  | [d], _ => simp
  | d :: d2 :: t, hd =>
    have h2 := digitChar_facts d2 (hd d2 (by simp))
    simp only [List.map_cons, List.take_succ_cons, List.take_zero, List.cons.injEq, and_true,
      not_or, not_and]
    exact ⟨fun _ => h2.2.2.2.2.1, fun _ => h2.2.2.2.2.2⟩

/-- An unsigned decimal numeral is read as its value. -/
theorem parseIntChars_digitChars (ds : List Nat) (hne : ds ≠ []) (hd : ∀ d ∈ ds, d < 10) :
    parseIntChars (ds.map Nat.digitChar) = some (digitsValue 10 ds : Int) := by
  obtain ⟨d, t, rfl⟩ := List.exists_cons_of_ne_nil hne
  have hf := digitChar_facts d (hd d (List.mem_cons_self _ _))
  have hhex := take_two_digitChars (d :: t) hd
  have htake := takeDigits_digitChars (d :: t) hd
  have hdrop : List.dropWhile isStrWhiteSpaceChar ((d :: t).map Nat.digitChar) =
      (d :: t).map Nat.digitChar := by
    simp [List.dropWhile, hf.2.1]
  unfold parseIntChars
  simp only [hdrop]
  have hhead : ((d :: t).map Nat.digitChar).head? = some (Nat.digitChar d) := rfl
  simp only [hhead, Option.some.injEq, hf.2.2.1, hf.2.2.2.1, or_self, if_false, hhex,
    decide_False, Bool.false_eq_true, htake, one_mul]

/-- A decimal numeral with a minus sign is read as the negated value. -/
theorem parseIntChars_neg_digitChars (ds : List Nat) (hne : ds ≠ []) (hd : ∀ d ∈ ds, d < 10) :
    parseIntChars ('-' :: ds.map Nat.digitChar) = some (-(digitsValue 10 ds : Int)) := by
  obtain ⟨d, t, rfl⟩ := List.exists_cons_of_ne_nil hne
  have hhex := take_two_digitChars (d :: t) hd
  have htake := takeDigits_digitChars (d :: t) hd
  have hws : isStrWhiteSpaceChar '-' = false := by decide
  have hdrop : List.dropWhile isStrWhiteSpaceChar ('-' :: (d :: t).map Nat.digitChar) =
      '-' :: (d :: t).map Nat.digitChar := by
    simp [List.dropWhile, hws]
  unfold parseIntChars
  simp only [hdrop, List.head?_cons, List.tail_cons, or_true, if_true, hhex,
    decide_False, Bool.false_eq_true, if_false, htake, neg_one_mul]

/-- The decimal numeral of an integer, as a client writes it into the path, is
read back by `parseInt` as that integer. -/
theorem parseInt_toString (a : Int) : parseInt (.str (toString a)) = some a := by
  cases a with
  | ofNat n =>
    obtain ⟨ds, hne, hd, heq, hv⟩ := toDigitsCore_spec (n + 1) n [] (Nat.lt_succ_self n)
    have hs : (toString (Int.ofNat n)).data = ds.map Nat.digitChar := by
      show (Nat.repr n).data = _
      simp [Nat.repr, Nat.toDigits, List.asString, heq]
    simp only [parseInt, Value.toStr, hs, parseIntChars_digitChars ds hne hd, hv]
    rfl
  | negSucc n =>
    obtain ⟨ds, hne, hd, heq, hv⟩ := toDigitsCore_spec (n + 1 + 1) (n + 1) []
      (Nat.lt_succ_self (n + 1))
    have hs : (toString (Int.negSucc n)).data = '-' :: ds.map Nat.digitChar := by
      show ("-" ++ Nat.repr (n + 1)).data = _
      simp [Nat.repr, Nat.toDigits, List.asString, heq]
    simp only [parseInt, Value.toStr, hs, parseIntChars_neg_digitChars ds hne hd, hv]
    rfl

/-! ## Tokens that are not plain numerals -/

theorem takeDigits_digitChars_append (ds : List Nat) (junk : List Char)
    (hd : ∀ d ∈ ds, d < 10) (hj : ∀ c, junk.head? = some c → digitValue 10 c = none) :
    takeDigits 10 (ds.map Nat.digitChar ++ junk) = ds := by
  induction ds with
  | nil =>
    cases junk with
    | nil => rfl
    | cons c t => simp [takeDigits, hj c rfl]
  | cons d t ih =>
    have hf := (digitChar_facts d (hd d (List.mem_cons_self _ _))).1
    have hrec := ih (fun x hx => hd x (List.mem_cons_of_mem _ hx))
    simp only [List.map_cons, List.cons_append, takeDigits, hf]
    exact congrArg (fun l => d :: l) hrec

theorem take_two_digitChars_append (ds : List Nat) (junk : List Char) (hne : ds ≠ [])
    (hd : ∀ d ∈ ds, d < 10) (hj : ∀ c, junk.head? = some c → c ≠ 'x' ∧ c ≠ 'X') :
    ¬ ((ds.map Nat.digitChar ++ junk).take 2 = ['0', 'x'] ∨
      (ds.map Nat.digitChar ++ junk).take 2 = ['0', 'X']) := by
  match ds, hne, hd with
  | [d], _, _ =>
    cases junk with
    | nil => simp
    | cons c t =>
      have hc := hj c rfl
      simp only [List.map_cons, List.map_nil, List.cons_append, List.nil_append,
        List.take_succ_cons, List.take_zero, List.cons.injEq, and_true, not_or, not_and]
      exact ⟨fun _ => hc.1, fun _ => hc.2⟩
  | d :: d2 :: t, _, hd =>
    have h2 := digitChar_facts d2 (hd d2 (by simp))
    simp only [List.map_cons, List.cons_append, List.take_succ_cons, List.take_zero,
      List.cons.injEq, and_true, not_or, not_and]
    exact ⟨fun _ => h2.2.2.2.2.1, fun _ => h2.2.2.2.2.2⟩

/-- A decimal numeral followed by text that does not start with a digit, `x` or
`X` is read as the numeral; the text after it is ignored. -/
theorem parseIntChars_numeral_then_text (ds : List Nat) (junk : List Char) (hne : ds ≠ [])
    (hd : ∀ d ∈ ds, d < 10)
    (hj : ∀ c, junk.head? = some c → digitValue 10 c = none ∧ c ≠ 'x' ∧ c ≠ 'X') :
    parseIntChars (ds.map Nat.digitChar ++ junk) = some (digitsValue 10 ds : Int) := by
  have hhex := take_two_digitChars_append ds junk hne hd (fun c hc => (hj c hc).2)
  have htake := takeDigits_digitChars_append ds junk hd (fun c hc => (hj c hc).1)
  obtain ⟨d, t, rfl⟩ := List.exists_cons_of_ne_nil hne
  have hf := digitChar_facts d (hd d (List.mem_cons_self _ _))
  have hdrop : List.dropWhile isStrWhiteSpaceChar ((d :: t).map Nat.digitChar ++ junk) =
      (d :: t).map Nat.digitChar ++ junk := by
    simp [List.dropWhile, hf.2.1]
  unfold parseIntChars
  simp only [hdrop]
  have hhead : ((d :: t).map Nat.digitChar ++ junk).head? = some (Nat.digitChar d) := rfl
  simp only [hhead, Option.some.injEq, hf.2.2.1, hf.2.2.2.1, or_self, if_false, hhex,
    decide_False, Bool.false_eq_true, htake, one_mul]

/-- A text that is empty or starts with a character other than white space, a
sign or a decimal digit is read as `NaN`. -/
theorem parseIntChars_no_numeral (chars : List Char)
    (h : ∀ c, chars.head? = some c →
      isStrWhiteSpaceChar c = false ∧ c ≠ '+' ∧ c ≠ '-' ∧ digitValue 10 c = none) :
    parseIntChars chars = none := by
  cases chars with
  | nil => decide
  | cons c t =>
    obtain ⟨hws, hplus, hminus, hdig⟩ := h c rfl
    have hzero : c ≠ '0' := by
      intro h0
      rw [h0] at hdig
      exact absurd hdig (by decide)
    have hdrop : List.dropWhile isStrWhiteSpaceChar (c :: t) = c :: t := by
      simp [List.dropWhile, hws]
    have hhex : ¬ ((c :: t).take 2 = ['0', 'x'] ∨ (c :: t).take 2 = ['0', 'X']) := by
      simp [List.take_succ_cons, hzero]
    have htake : takeDigits 10 (c :: t) = [] := by
      simp [takeDigits, hdig]
    unfold parseIntChars
    simp only [hdrop, List.head?_cons, Option.some.injEq, hplus, hminus, or_self, if_false, hhex,
      decide_False, Bool.false_eq_true, htake]

/-- In a store with sequential aliases an entry carries alias `a` exactly when
`a` lies between 1 and the number of entries. -/
theorem exists_alias_iff (s : Store) (hs : AliasesSequential s) (a : Int) :
    (∃ e ∈ s.urlDatabase, e.short_url = a) ↔ 1 ≤ a ∧ a ≤ (s.urlDatabase.length : Int) := by
  constructor
  · rintro ⟨e, he, hea⟩
    obtain ⟨⟨i, hi⟩, rfl⟩ := List.mem_iff_get.1 he
    rw [hs.1 i hi] at hea
    omega
  · rintro ⟨h1, h2⟩
    have hk : (a - 1).toNat < s.urlDatabase.length := by omega
    refine ⟨s.urlDatabase.get ⟨(a - 1).toNat, hk⟩, List.get_mem _ _ _, ?_⟩
    rw [hs.1 _ hk]
    omega

/-- In a store with sequential aliases a token that parses to `a` gets the error
body exactly when `a` is not between 1 and the number of entries. -/
theorem getShorturl_invalid_iff (s : Store) (hs : AliasesSequential s) (t : Value) (a : Int)
    (ht : parseInt t = some a) :
    getShorturl s t = (s, .invalidUrl) ↔ ¬ (1 ≤ a ∧ a ≤ (s.urlDatabase.length : Int)) := by
  rw [← exists_alias_iff s hs a]
  constructor
  · rintro h ⟨e, he, hea⟩
    have hf := find_alias_of_mem s hs e he
    rw [hea] at hf
    simp [getShorturl, ht, hf] at h
  · intro h
    apply getShorturl_invalid_of_absent s t a ht
    intro e he hea
    exact h ⟨e, he, hea⟩

/-! ## Submissions -/

/-- After a submission that returned `(u, a)`, the first stored entry with URL
`u` carries alias `a`. -/
theorem postShorturl_first_match (rest : String → List Char → Bool) (s : Store) (u : Value)
    (h : isValidHttpUrl rest u = true) :
    ∃ e, (postShorturl rest s u).2 = .shortened u e.short_url ∧ e.original_url = u ∧
      (postShorturl rest s u).1.urlDatabase.find? (fun entry => entry.original_url == u) =
        some e := by
  rcases postShorturl_cases rest s u h with ⟨e, _, heu, hf, hp⟩ | ⟨hne, hp⟩
  · exact ⟨e, by rw [hp], heu, by rw [hp]; exact hf⟩
  · refine ⟨{ original_url := u, short_url := s.idCounter }, by rw [hp], rfl, ?_⟩
    rw [hp]
    simp only [List.find?_append, (find_url_eq_none_iff _ _).2 hne, Option.none_or]
    simp [List.find?]

/-- A submission whose URL already has a first stored match returns it and
changes nothing. -/
theorem postShorturl_of_first_match (rest : String → List Char → Bool) (s : Store) (u : Value)
    (e : Entry) (l : List Entry) (h : isValidHttpUrl rest u = true)
    (hf : s.urlDatabase.find? (fun entry => entry.original_url == u) = some e)
    (t : Store) (ht : t.urlDatabase = s.urlDatabase ++ l) :
    postShorturl rest t u = (t, .shortened u e.short_url) := by
  apply postShorturl_found rest t u e h
  rw [ht, List.find?_append, hf]
  rfl

/-! ## The claims -/

/-- C1 (round trip): in every store reached from the empty store, submitting a
URL `U` that passes validation returns an alias, and for the alias `a` it
returns, requesting `/api/shorturl/a` in the resulting store redirects to
exactly the string `U`. -/
theorem C1_round_trip (rest : String → List Char → Bool) (reqs : List Request) (U : String)
    (hU : isValidHttpUrl rest (.str U) = true) :
    (∃ a, (postShorturl rest (run rest Store.init reqs).1 (.str U)).2 =
        .shortened (.str U) a) ∧
    ∀ u a, (postShorturl rest (run rest Store.init reqs).1 (.str U)).2 = .shortened u a →
      getShorturl (postShorturl rest (run rest Store.init reqs).1 (.str U)).1
          (.str (toString a)) =
        ((postShorturl rest (run rest Store.init reqs).1 (.str U)).1, .redirect (.str U)) := by
  have hs := aliasesSequential_step rest _ (.post (.str U)) (aliasesSequential_run rest reqs)
  simp only [step] at hs
  obtain ⟨e, hresp, _, _⟩ := postShorturl_first_match rest (run rest Store.init reqs).1 _ hU
  refine ⟨⟨e.short_url, hresp⟩, ?_⟩
  intro u a hua
  have hmem := (step_mem_iff rest (run rest Store.init reqs).1 (.post (.str U)) (.str U) a).2
  simp only [step] at hmem
  have hu : u = .str U := by
    rw [hresp] at hua
    simp only [Response.shortened.injEq] at hua
    exact hua.1.symm
  subst hu
  exact (getShorturl_redirect_iff _ hs _ a (parseInt_toString a) _).2 (hmem (Or.inr (by rw [hua])))

/-- Witness of C1: the example URL submitted to the empty store. -/
theorem C1_round_trip_witness :
    isValidHttpUrl restNonEmpty (.str "https://www.example.com") = true ∧
    ((∃ a, (postShorturl restNonEmpty (run restNonEmpty Store.init [.post (.str "http://a.example/")]).1
        (.str "https://www.example.com")).2 = .shortened (.str "https://www.example.com") a) ∧
    ∀ u a, (postShorturl restNonEmpty (run restNonEmpty Store.init [.post (.str "http://a.example/")]).1
        (.str "https://www.example.com")).2 = .shortened u a →
      getShorturl (postShorturl restNonEmpty (run restNonEmpty Store.init [.post (.str "http://a.example/")]).1
          (.str "https://www.example.com")).1 (.str (toString a)) =
        ((postShorturl restNonEmpty (run restNonEmpty Store.init [.post (.str "http://a.example/")]).1
          (.str "https://www.example.com")).1, .redirect (.str "https://www.example.com"))) :=
  ⟨by decide, C1_round_trip restNonEmpty [.post (.str "http://a.example/")]
    "https://www.example.com" (by decide)⟩

/-- C2: after any sequence of requests served from the empty store, and for
every integer `a`, requesting `/api/shorturl/a` redirects to `u` exactly when an
earlier submission of `u` in the sequence returned alias `a`; when no submission
returned `a` the answer is the error body. -/
theorem C2_resolve_iff_returned (rest : String → List Char → Bool) (reqs : List Request)
    (a : Int) :
    (∀ u, getShorturl (run rest Store.init reqs).1 (.str (toString a)) =
          ((run rest Store.init reqs).1, .redirect u) ↔
        (Request.post u, Response.shortened u a) ∈ reqs.zip (run rest Store.init reqs).2) ∧
    ((∀ u, (Request.post u, Response.shortened u a) ∉ reqs.zip (run rest Store.init reqs).2) →
      getShorturl (run rest Store.init reqs).1 (.str (toString a)) =
        ((run rest Store.init reqs).1, .invalidUrl)) := by
  have hs := aliasesSequential_run rest reqs
  have hmem := fun u => run_mem_iff rest u a reqs Store.init
  constructor
  · intro u
    rw [getShorturl_redirect_iff _ hs _ a (parseInt_toString a) u, hmem u]
    simp [Store.init]
  · intro hno
    apply getShorturl_invalid_of_absent _ _ a (parseInt_toString a)
    intro e he hea
    have : ({ original_url := e.original_url, short_url := a } : Entry) ∈
        (run rest Store.init reqs).1.urlDatabase := by
      rw [← hea]; exact he
    rcases (hmem e.original_url).1 this with h | h
    · simp [Store.init] at h
    · exact hno _ h

/-- Witness of C2: after the example URL is stored and looked up, `/api/shorturl/1`
redirects to it, and `/api/shorturl/99`, an alias no submission returned, gets
the error body. -/
theorem C2_resolve_iff_returned_witness :
    getShorturl
        (run restNonEmpty Store.init
          [.post (.str "https://www.example.com"), .get (.str "1")]).1
        (.str (toString (1 : Int))) =
      ((run restNonEmpty Store.init
          [.post (.str "https://www.example.com"), .get (.str "1")]).1,
        .redirect (.str "https://www.example.com")) ∧
    getShorturl
        (run restNonEmpty Store.init
          [.post (.str "https://www.example.com"), .get (.str "1")]).1
        (.str (toString (99 : Int))) =
      ((run restNonEmpty Store.init
          [.post (.str "https://www.example.com"), .get (.str "1")]).1, .invalidUrl) :=
  ⟨((C2_resolve_iff_returned restNonEmpty
      [.post (.str "https://www.example.com"), .get (.str "1")] 1).1
      (.str "https://www.example.com")).2 (by decide),
    (C2_resolve_iff_returned restNonEmpty
      [.post (.str "https://www.example.com"), .get (.str "1")] 99).2
      (by
        have hz : [Request.post (.str "https://www.example.com"), Request.get (.str "1")].zip
            (run restNonEmpty Store.init
              [.post (.str "https://www.example.com"), .get (.str "1")]).2 =
            [(Request.post (.str "https://www.example.com"),
                Response.shortened (.str "https://www.example.com") 1),
              (Request.get (.str "1"), Response.redirect (.str "https://www.example.com"))] := by
          decide
        intro u
        rw [hz]
        simp)⟩

/-- C3: in every store, a candidate that is absent, empty, not parsed by
`new URL`, or parsed with a protocol other than `http:` and `https:` gets the
error body, and nothing is stored. -/
theorem C3_invalid_candidate (rest : String → List Char → Bool) (s : Store) (candidate : Value)
    (h : candidate = .undefined ∨ candidate = .str "" ∨ URL.new rest candidate = none ∨
      ∃ url, URL.new rest candidate = some url ∧ url.protocol ≠ "http:" ∧
        url.protocol ≠ "https:") :
    postShorturl rest s candidate = (s, .invalidUrl) := by
  apply postShorturl_invalid
  rcases h with h | h | h | ⟨url, h, h1, h2⟩
  · subst h
    have : schemeStartState (preprocess (Value.toStr .undefined).data) = none := by decide
    simp [isValidHttpUrl, URL.new, this]
  · subst h
    have : schemeStartState (preprocess (Value.toStr (.str "")).data) = none := by decide
    simp [isValidHttpUrl, URL.new, this]
  · simp [isValidHttpUrl, h]
  · simp [isValidHttpUrl, h, h1, h2]

/-- Witness of C3: `ftp://x.com` parses with protocol `ftp:`. -/
theorem C3_invalid_candidate_witness :
    (Value.str "ftp://x.com" = .undefined ∨ Value.str "ftp://x.com" = .str "" ∨
      URL.new restNonEmpty (.str "ftp://x.com") = none ∨
      ∃ url, URL.new restNonEmpty (.str "ftp://x.com") = some url ∧ url.protocol ≠ "http:" ∧
        url.protocol ≠ "https:") ∧
    postShorturl restNonEmpty Store.init (.str "ftp://x.com") = (Store.init, .invalidUrl) :=
  ⟨Or.inr (Or.inr (Or.inr ⟨{ protocol := "ftp:" }, by decide, by decide, by decide⟩)),
    C3_invalid_candidate restNonEmpty Store.init (.str "ftp://x.com")
      (Or.inr (Or.inr (Or.inr ⟨{ protocol := "ftp:" }, by decide, by decide, by decide⟩)))⟩

/-- C4 (idempotence): in every store, submitting a valid URL `U` twice in
succession returns the same `(original_url, short_url)` pair both times, and the
second call leaves `urlDatabase` and `idCounter` as the first left them. -/
theorem C4_idempotent (rest : String → List Char → Bool) (s : Store) (U : String)
    (hU : isValidHttpUrl rest (.str U) = true) :
    (∃ a, (postShorturl rest s (.str U)).2 = .shortened (.str U) a) ∧
    (postShorturl rest (postShorturl rest s (.str U)).1 (.str U)).2 =
      (postShorturl rest s (.str U)).2 ∧
    (postShorturl rest (postShorturl rest s (.str U)).1 (.str U)).1 =
      (postShorturl rest s (.str U)).1 := by
  obtain ⟨e, hresp, _, hf⟩ := postShorturl_first_match rest s _ hU
  have h2 := postShorturl_of_first_match rest _ _ e [] hU hf (postShorturl rest s (.str U)).1
    (by simp)
  exact ⟨⟨_, hresp⟩, by rw [h2, hresp], by rw [h2]⟩

/-- Witness of C4: the example URL submitted twice to the empty store. -/
theorem C4_idempotent_witness :
    isValidHttpUrl restNonEmpty (.str "https://www.example.com") = true ∧
    ((∃ a, (postShorturl restNonEmpty Store.init (.str "https://www.example.com")).2 =
        .shortened (.str "https://www.example.com") a) ∧
    (postShorturl restNonEmpty
        (postShorturl restNonEmpty Store.init (.str "https://www.example.com")).1
        (.str "https://www.example.com")).2 =
      (postShorturl restNonEmpty Store.init (.str "https://www.example.com")).2 ∧
    (postShorturl restNonEmpty
        (postShorturl restNonEmpty Store.init (.str "https://www.example.com")).1
        (.str "https://www.example.com")).1 =
      (postShorturl restNonEmpty Store.init (.str "https://www.example.com")).1) :=
  ⟨by decide, C4_idempotent restNonEmpty Store.init "https://www.example.com" (by decide)⟩

/-- C5: in every store reached from the empty store, two valid URLs that differ
as strings and are both not stored, submitted one after the other, get distinct
aliases, the second being the first plus 1. -/
theorem C5_consecutive_aliases (rest : String → List Char → Bool) (reqs : List Request)
    (U1 U2 : String) (h1 : isValidHttpUrl rest (.str U1) = true)
    (h2 : isValidHttpUrl rest (.str U2) = true) (hne : U1 ≠ U2)
    (ha1 : ∀ e ∈ (run rest Store.init reqs).1.urlDatabase, e.original_url ≠ .str U1)
    (ha2 : ∀ e ∈ (run rest Store.init reqs).1.urlDatabase, e.original_url ≠ .str U2) :
    ∃ a1 a2,
      (postShorturl rest (run rest Store.init reqs).1 (.str U1)).2 = .shortened (.str U1) a1 ∧
      (postShorturl rest (postShorturl rest (run rest Store.init reqs).1 (.str U1)).1
          (.str U2)).2 = .shortened (.str U2) a2 ∧
      a1 ≠ a2 ∧ a2 = a1 + 1 := by
  have hp1 := postShorturl_new rest (run rest Store.init reqs).1 (.str U1) h1
    ((find_url_eq_none_iff _ _).2 ha1)
  have hnone : ∀ e ∈ (postShorturl rest (run rest Store.init reqs).1 (.str U1)).1.urlDatabase,
      e.original_url ≠ .str U2 := by
    rw [hp1]
    intro e he
    rcases List.mem_append.1 he with he | he
    · exact ha2 e he
    · simp only [List.mem_singleton] at he
      subst he
      simpa using hne
  have hp2 := postShorturl_new rest _ (.str U2) h2 ((find_url_eq_none_iff _ _).2 hnone)
  refine ⟨(run rest Store.init reqs).1.idCounter, (run rest Store.init reqs).1.idCounter + 1,
    by rw [hp1], ?_, by omega, rfl⟩
  rw [hp2, hp1]

/-- Witness of C5: two URLs that differ only in the trailing slash, submitted
after one other URL. -/
theorem C5_consecutive_aliases_witness :
    ∃ a1 a2,
      (postShorturl restNonEmpty (run restNonEmpty Store.init [.post (.str "http://a.example/")]).1
        (.str "https://www.example.com")).2 = .shortened (.str "https://www.example.com") a1 ∧
      (postShorturl restNonEmpty
          (postShorturl restNonEmpty
            (run restNonEmpty Store.init [.post (.str "http://a.example/")]).1
            (.str "https://www.example.com")).1
          (.str "https://www.example.com/")).2 = .shortened (.str "https://www.example.com/") a2 ∧
      a1 ≠ a2 ∧ a2 = a1 + 1 :=
  C5_consecutive_aliases restNonEmpty [.post (.str "http://a.example/")]
    "https://www.example.com" "https://www.example.com/" (by decide) (by decide) (by decide)
    (by decide) (by decide)

/-- C6 (alias stability): in every store reached from the empty store, once a
submission of a valid URL `U` has returned alias `a`, a submission of `U` after
any further finite sequence of requests returns alias `a` again. -/
theorem C6_alias_stable (rest : String → List Char → Bool) (reqs others : List Request)
    (U : String) (a : Int) (hU : isValidHttpUrl rest (.str U) = true)
    (ha : (postShorturl rest (run rest Store.init reqs).1 (.str U)).2 = .shortened (.str U) a) :
    (postShorturl rest
        (run rest (postShorturl rest (run rest Store.init reqs).1 (.str U)).1 others).1
        (.str U)).2 = .shortened (.str U) a := by
  obtain ⟨e, hresp, _, hf⟩ := postShorturl_first_match rest (run rest Store.init reqs).1 _ hU
  obtain ⟨l, hl⟩ := run_append rest others (postShorturl rest (run rest Store.init reqs).1 (.str U)).1
  rw [postShorturl_of_first_match rest _ _ e l hU hf _ hl]
  rw [hresp] at ha
  exact ha

/-- Witness of C6: the example URL keeps alias 1 across an invalid submission, a
new URL, a repeat, and two lookups. -/
theorem C6_alias_stable_witness :
    (postShorturl restNonEmpty
        (run restNonEmpty
          (postShorturl restNonEmpty (run restNonEmpty Store.init []).1
            (.str "https://www.example.com")).1
          [.post (.str "ftp://x.com"), .post (.str "http://b.example/"),
            .post (.str "https://www.example.com"), .get (.str "2"), .get (.str "x")]).1
        (.str "https://www.example.com")).2 = .shortened (.str "https://www.example.com") 1 :=
  C6_alias_stable restNonEmpty []
    [.post (.str "ftp://x.com"), .post (.str "http://b.example/"),
      .post (.str "https://www.example.com"), .get (.str "2"), .get (.str "x")]
    "https://www.example.com" 1 (by decide) (by decide)

/-- C7 (alias invariant): in every store reached from the empty store the k-th
entry carries alias k (counting from 1), the aliases are strictly increasing in
creation order, pairwise distinct, positive and below the counter, and the
counter is the number of entries plus 1. -/
theorem C7_alias_invariant (rest : String → List Char → Bool) (reqs : List Request) :
    (∀ k (h : k < (run rest Store.init reqs).1.urlDatabase.length),
      ((run rest Store.init reqs).1.urlDatabase.get ⟨k, h⟩).short_url = (k : Int) + 1) ∧
    (run rest Store.init reqs).1.idCounter =
      ((run rest Store.init reqs).1.urlDatabase.length : Int) + 1 ∧
    ((run rest Store.init reqs).1.urlDatabase.map (fun e => e.short_url)).Pairwise (· < ·) ∧
    ((run rest Store.init reqs).1.urlDatabase.map (fun e => e.short_url)).Nodup ∧
    ∀ e ∈ (run rest Store.init reqs).1.urlDatabase,
      0 < e.short_url ∧ e.short_url < (run rest Store.init reqs).1.idCounter := by
  obtain ⟨hk, hc⟩ := aliasesSequential_run rest reqs
  have hpair : ((run rest Store.init reqs).1.urlDatabase.map (fun e => e.short_url)).Pairwise
      (· < ·) := by
    rw [List.pairwise_iff_getElem]
    intro i j hi hj hij
    simp only [List.length_map] at hi hj
    simp only [List.getElem_map]
    have h1 := hk i hi
    have h2 := hk j hj
    simp only [List.get_eq_getElem] at h1 h2
    rw [h1, h2]
    omega
  refine ⟨hk, hc, hpair, hpair.imp (fun h => ne_of_lt h), ?_⟩
  intro e he
  obtain ⟨⟨i, hi⟩, rfl⟩ := List.mem_iff_get.1 he
  rw [hk i hi, hc]
  omega

/-- Witness of C7: after three new URLs, one repeat and one invalid submission
the second entry carries alias 2. -/
theorem C7_alias_invariant_witness :
    ((run restNonEmpty Store.init
      [.post (.str "http://a.example/"), .post (.str "ftp://x.com"),
        .post (.str "http://b.example/"), .post (.str "http://a.example/"),
        .post (.str "http://c.example/")]).1.urlDatabase.get ⟨1, by decide⟩).short_url =
      ((1 : Nat) : Int) + 1 :=
  (C7_alias_invariant restNonEmpty
    [.post (.str "http://a.example/"), .post (.str "ftp://x.com"),
      .post (.str "http://b.example/"), .post (.str "http://a.example/"),
      .post (.str "http://c.example/")]).1 1 (by decide)

/-- C8 (no duplicate records): in every store reached from the empty store no
two entries have the same `original_url`, and submitting the URL of a stored
entry returns that entry and leaves the store as it is. -/
theorem C8_no_duplicate_records (rest : String → List Char → Bool) (reqs : List Request) :
    ((run rest Store.init reqs).1.urlDatabase.map (fun e => e.original_url)).Nodup ∧
    ∀ e ∈ (run rest Store.init reqs).1.urlDatabase,
      postShorturl rest (run rest Store.init reqs).1 e.original_url =
        ((run rest Store.init reqs).1, .shortened e.original_url e.short_url) := by
  obtain ⟨hnd, hvalid⟩ := urlsDistinctValid_run rest reqs
  refine ⟨hnd, ?_⟩
  intro e he
  rcases postShorturl_cases rest _ e.original_url (hvalid e he) with ⟨e2, he2, heu, _, hp⟩ | ⟨hne, _⟩
  · have : e2 = e := List.inj_on_of_nodup_map hnd he2 he heu
    rw [hp, this]
  · exact absurd rfl (hne e he)

/-- Witness of C8: resubmitting the first of two stored URLs returns alias 1 and
keeps both entries and the counter. -/
theorem C8_no_duplicate_records_witness :
    postShorturl restNonEmpty
        (run restNonEmpty Store.init
          [.post (.str "http://a.example/"), .post (.str "http://b.example/")]).1
        (Entry.mk (.str "http://a.example/") 1).original_url =
      ((run restNonEmpty Store.init
          [.post (.str "http://a.example/"), .post (.str "http://b.example/")]).1,
        .shortened (Entry.mk (.str "http://a.example/") 1).original_url
          (Entry.mk (.str "http://a.example/") 1).short_url) :=
  (C8_no_duplicate_records restNonEmpty
    [.post (.str "http://a.example/"), .post (.str "http://b.example/")]).2
    (Entry.mk (.str "http://a.example/") 1) (by decide)

/-- C9 as amended: a token on which `parseInt` yields `NaN` (in particular a
token that is empty or starts with a character other than white space, a sign
or a decimal digit) gets the error body in every store, never a redirect, and
the store is left as it is.  A token on which `parseInt` yields a number `a` (in
particular a decimal numeral followed by text that does not start with a digit,
`x` or `X`, which yields the numeral) is looked up as `a`: in every store
reached from the empty store it is redirected to `u` exactly when the entry
`(u, a)` is stored, and it gets the error body exactly when `a` is not between
1 and the number of entries. -/
theorem C9_token_lookup (rest : String → List Char → Bool) (reqs : List Request) (s : Store)
    (token : Value) :
    (parseInt token = none → getShorturl s token = (s, .invalidUrl)) ∧
    ((∀ c, token.toStr.data.head? = some c →
        isStrWhiteSpaceChar c = false ∧ c ≠ '+' ∧ c ≠ '-' ∧ digitValue 10 c = none) →
      parseInt token = none) ∧
    (∀ (ds : List Nat) (junk : List Char), token.toStr.data = ds.map Nat.digitChar ++ junk →
      ds ≠ [] → (∀ d ∈ ds, d < 10) →
      (∀ c, junk.head? = some c → digitValue 10 c = none ∧ c ≠ 'x' ∧ c ≠ 'X') →
      parseInt token = some (digitsValue 10 ds : Int)) ∧
    (∀ a, parseInt token = some a →
      (∀ u, getShorturl (run rest Store.init reqs).1 token =
            ((run rest Store.init reqs).1, .redirect u) ↔
          ({ original_url := u, short_url := a } : Entry) ∈
            (run rest Store.init reqs).1.urlDatabase) ∧
      (getShorturl (run rest Store.init reqs).1 token =
            ((run rest Store.init reqs).1, .invalidUrl) ↔
          ¬ (1 ≤ a ∧ a ≤ ((run rest Store.init reqs).1.urlDatabase.length : Int)))) := by
  refine ⟨getShorturl_nan s token, ?_, ?_, ?_⟩
  · intro h
    exact parseIntChars_no_numeral _ h
  · intro ds junk hdata hne hd hj
    simp only [parseInt, hdata]
    exact parseIntChars_numeral_then_text ds junk hne hd hj
  · intro a ha
    have hs := aliasesSequential_run rest reqs
    exact ⟨getShorturl_redirect_iff _ hs token a ha, getShorturl_invalid_iff _ hs token a ha⟩

/-- Witness of the amended C9: against the store holding the example URL under
alias 1, the token `abc` gets the error body, and so does `0abc`, which is read
as the numeral 0. -/
theorem C9_token_lookup_witness :
    getShorturl (Store.mk [Entry.mk (.str "https://www.example.com") 1] 2) (.str "abc") =
      (Store.mk [Entry.mk (.str "https://www.example.com") 1] 2, .invalidUrl) ∧
    parseInt (.str "0abc") = some (digitsValue 10 [0] : Int) ∧
    getShorturl (run restNonEmpty Store.init [.post (.str "https://www.example.com")]).1
        (.str "0abc") =
      ((run restNonEmpty Store.init [.post (.str "https://www.example.com")]).1, .invalidUrl) :=
  ⟨(C9_token_lookup restNonEmpty [] (Store.mk [Entry.mk (.str "https://www.example.com") 1] 2)
      (.str "abc")).1
      ((C9_token_lookup restNonEmpty [] Store.init (.str "abc")).2.1 (by decide)),
    (C9_token_lookup restNonEmpty [] Store.init (.str "0abc")).2.2.1 [0] ['a', 'b', 'c']
      (by decide) (by decide) (by decide) (by decide),
    ((C9_token_lookup restNonEmpty [.post (.str "https://www.example.com")] Store.init
      (.str "0abc")).2.2.2 0 (by decide)).2.2 (by decide)⟩

/-- Counterexample to C9 as stated: the token `1abc` is not a decimal numeral,
yet after the example URL has been stored it is redirected there. -/
theorem C9_counterexample :
    (run restNonEmpty Store.init
      [.post (.str "https://www.example.com"), .get (.str "1abc")]).2 =
      [.shortened (.str "https://www.example.com") 1,
        .redirect (.str "https://www.example.com")] := by
  decide

/-- C10 (append-only store): for every store and every request the entries
before are a prefix of the entries after; a lookup with any token, a submission
that fails validation and a submission of a stored URL leave the store as it is;
a submission of a valid URL that is not stored appends exactly one entry, which
carries the counter, and adds 1 to the counter. -/
theorem C10_append_only (rest : String → List Char → Bool) (s : Store) :
    (∀ r, s.urlDatabase <+: (step rest s r).1.urlDatabase ∧
      s.urlDatabase.length ≤ (step rest s r).1.urlDatabase.length) ∧
    (∀ t, (getShorturl s t).1 = s) ∧
    (∀ u, isValidHttpUrl rest u = false → (postShorturl rest s u).1 = s) ∧
    (∀ u, (∃ e ∈ s.urlDatabase, e.original_url = u) → (postShorturl rest s u).1 = s) ∧
    (∀ u, isValidHttpUrl rest u = true → (∀ e ∈ s.urlDatabase, e.original_url ≠ u) →
      (postShorturl rest s u).1 =
        { urlDatabase := s.urlDatabase ++ [{ original_url := u, short_url := s.idCounter }],
          idCounter := s.idCounter + 1 }) := by
  refine ⟨?_, getShorturl_store s, ?_, ?_, ?_⟩
  · intro r
    obtain ⟨l, hl⟩ := step_append rest s r
    rw [hl]
    exact ⟨List.prefix_append _ _, by simp⟩
  · intro u hu
    rw [postShorturl_invalid rest s u hu]
  · rintro u ⟨e, he, heu⟩
    cases hv : isValidHttpUrl rest u with
    | false => rw [postShorturl_invalid rest s u hv]
    | true =>
      rcases postShorturl_cases rest s u hv with ⟨_, _, _, _, hp⟩ | ⟨hne, _⟩
      · rw [hp]
      · exact absurd heu (hne e he)
  · intro u hv hne
    rw [postShorturl_new rest s u hv ((find_url_eq_none_iff _ _).2 hne)]

/-- Witness of C10: a new valid URL submitted to a store with one entry. -/
theorem C10_append_only_witness :
    (postShorturl restNonEmpty
        { urlDatabase := [{ original_url := .str "http://a.example/", short_url := 1 }],
          idCounter := 2 } (.str "https://www.example.com")).1 =
      { urlDatabase := [{ original_url := .str "http://a.example/", short_url := 1 }] ++
          [{ original_url := .str "https://www.example.com", short_url := 2 }],
        idCounter := 2 + 1 } :=
  (C10_append_only restNonEmpty
    { urlDatabase := [{ original_url := .str "http://a.example/", short_url := 1 }],
      idCounter := 2 }).2.2.2.2 (.str "https://www.example.com") (by decide) (by decide)

end UrlShortener
